import Mathlib

/-!
Verification development for the RAG chat frontend
(`frontend/app/lib/api.ts`, `frontend/app/chat/ChatLayout.tsx`,
`frontend/app/chat/components/ChatWindow.tsx`,
`frontend/app/chat/components/ChatInput.tsx`).

The streaming wire protocol, the payload interpreter, the session
controller callbacks and the summary cache are embedded shallowly:
strings are `List Char`, JavaScript `JSON.parse` is an oracle parameter
`parse : List Char → Option Json`, and every React `setX` call becomes a
field update on an explicit state record.
-/

namespace RagClient

/-- ASCII whitespace recognised by the model of JavaScript
`String.prototype.trim` (the source only ever trims spaces, tabs,
carriage returns and newlines). -/
def isWS (c : Char) : Bool :=
  c == ' ' || c == '\t' || c == '\n' || c == '\r'

/-- Model of JavaScript `s.trim()` on a character list. -/
def trimChars (s : List Char) : List Char :=
  ((s.dropWhile isWS).reverse.dropWhile isWS).reverse

/-- Model of `buffer.indexOf("\n\n")` followed by the two slices in
`streamChat` (api.ts lines 158-161): returns the text before the first
two-newline delimiter and the text after it, or `none` when the buffer
holds no delimiter. -/
def findDelim : List Char → Option (List Char × List Char)
  | [] => none
  | [_] => none
  | c :: d :: rest =>
    if c == '\n' && d == '\n' then some ([], rest)
    else
      match findDelim (d :: rest) with
      | none => none
      | some (p, s) => some (c :: p, s)

theorem findDelim_some_struct :
    ∀ (l p s : List Char), findDelim l = some (p, s) → l = p ++ '\n' :: '\n' :: s
  | [], p, s, h => by simp [findDelim] at h
  | [c], p, s, h => by simp [findDelim] at h
  | c :: d :: rest, p, s, h => by
    by_cases hnn : (c == '\n' && d == '\n') = true
    · rw [findDelim, if_pos hnn] at h
      obtain ⟨hc, hd⟩ := Bool.and_eq_true_iff.mp hnn
      obtain ⟨hp, hs⟩ := Prod.mk.injEq .. ▸ Option.some.injEq .. ▸ h
      subst hp; subst hs
      simp [beq_iff_eq.mp hc, beq_iff_eq.mp hd]
    · rw [findDelim, if_neg hnn] at h
      cases hrec : findDelim (d :: rest) with
      | none => rw [hrec] at h; exact absurd h (by simp)
      | some ps =>
        obtain ⟨p', s'⟩ := ps
        rw [hrec] at h
        obtain ⟨hp, hs⟩ := Prod.mk.injEq .. ▸ Option.some.injEq .. ▸ h
        have ih := findDelim_some_struct (d :: rest) p' s' hrec
        subst hs
        rw [← hp, List.cons_append, ← ih]

theorem findDelim_append_of_some :
    ∀ (l t p s : List Char), findDelim l = some (p, s) →
      findDelim (l ++ t) = some (p, s ++ t)
  | [], t, p, s, h => by simp [findDelim] at h
  | [c], t, p, s, h => by simp [findDelim] at h
  | c :: d :: rest, t, p, s, h => by
    by_cases hnn : (c == '\n' && d == '\n') = true
    · rw [findDelim, if_pos hnn] at h
      obtain ⟨hp, hs⟩ := Prod.mk.injEq .. ▸ Option.some.injEq .. ▸ h
      subst hp; subst hs
      show findDelim (c :: d :: (rest ++ t)) = _
      rw [findDelim, if_pos hnn]
    · rw [findDelim, if_neg hnn] at h
      cases hrec : findDelim (d :: rest) with
      | none => rw [hrec] at h; exact absurd h (by simp)
      | some ps =>
        obtain ⟨p', s'⟩ := ps
        rw [hrec] at h
        obtain ⟨hp, hs⟩ := Prod.mk.injEq .. ▸ Option.some.injEq .. ▸ h
        subst hs
        have ih := findDelim_append_of_some (d :: rest) t p' s' hrec
        show findDelim (c :: d :: (rest ++ t)) = _
        rw [findDelim, if_neg hnn]
        have : d :: (rest ++ t) = (d :: rest) ++ t := rfl
        rw [this, ih, ← hp]

theorem findDelim_some_len {l p s : List Char} (h : findDelim l = some (p, s)) :
    s.length < l.length := by
  have := findDelim_some_struct l p s h
  subst this
  simp [List.length_append]
  omega

/-- Fuel-indexed frame extraction: repeatedly split the buffer at the
first `"\n\n"` delimiter, as the inner `while` loop of `streamChat`
does (api.ts lines 158-164).  The fuel only makes the recursion
structural; `extractFrames` supplies enough fuel for any input. -/
def extractFramesAux : Nat → List Char → List (List Char) × List Char
  | 0, buf => ([], buf)
  | fuel + 1, buf =>
    match findDelim buf with
    | none => ([], buf)
    | some (frame, rest) =>
      let r := extractFramesAux fuel rest
      (frame :: r.1, r.2)

/-- All complete frames currently in the buffer, plus the remaining
(possibly incomplete) tail that stays buffered. -/
def extractFrames (buf : List Char) : List (List Char) × List Char :=
  extractFramesAux buf.length buf

theorem extractFramesAux_fuel_irrel :
    ∀ (f₁ f₂ : Nat) (buf : List Char), buf.length ≤ f₁ → buf.length ≤ f₂ →
      extractFramesAux f₁ buf = extractFramesAux f₂ buf
  | 0, f₂, buf, h₁, _ => by
    have : buf = [] := List.length_eq_zero.mp (Nat.le_zero.mp h₁)
    subst this
    cases f₂ <;> simp [extractFramesAux, findDelim]
  | f₁ + 1, 0, buf, _, h₂ => by
    have : buf = [] := List.length_eq_zero.mp (Nat.le_zero.mp h₂)
    subst this
    simp [extractFramesAux, findDelim]
  | f₁ + 1, f₂ + 1, buf, h₁, h₂ => by
    rw [extractFramesAux, extractFramesAux]
    cases hfd : findDelim buf with
    | none => rfl
    | some ps =>
      obtain ⟨frame, rest⟩ := ps
      have hlt := findDelim_some_len hfd
      have hr₁ : rest.length ≤ f₁ := by omega
      have hr₂ : rest.length ≤ f₂ := by omega
      simp only [extractFramesAux_fuel_irrel f₁ f₂ rest hr₁ hr₂]

theorem extractFrames_eq_none {buf : List Char} (h : findDelim buf = none) :
    extractFrames buf = ([], buf) := by
  rw [extractFrames]
  cases hl : buf.length with
  | zero => rfl
  | succ n => rw [extractFramesAux, h]

theorem extractFrames_eq_some {buf frame rest : List Char}
    (h : findDelim buf = some (frame, rest)) :
    extractFrames buf = (frame :: (extractFrames rest).1, (extractFrames rest).2) := by
  have hlt := findDelim_some_len h
  rw [extractFrames]
  cases hl : buf.length with
  | zero =>
    rw [hl] at hlt
    omega
  | succ n =>
    rw [extractFramesAux, h]
    dsimp only
    rw [extractFramesAux_fuel_irrel n rest.length rest (by omega) (Nat.le_refl _)]
    rfl

/-- Appending more input never changes the frames already extractable,
it only extends the tail the extractor keeps working on. -/
theorem extractFrames_append (buf chunk : List Char) :
    extractFrames (buf ++ chunk) =
      ((extractFrames buf).1 ++ (extractFrames ((extractFrames buf).2 ++ chunk)).1,
        (extractFrames ((extractFrames buf).2 ++ chunk)).2) := by
  cases hfd : findDelim buf with
  | none =>
    rw [extractFrames_eq_none hfd]
    simp
  | some ps =>
    obtain ⟨frame, rest⟩ := ps
    have h₁ := extractFrames_eq_some hfd
    have h₂ : findDelim (buf ++ chunk) = some (frame, rest ++ chunk) :=
      findDelim_append_of_some buf chunk frame rest hfd
    have h₃ := extractFrames_eq_some h₂
    have ih := extractFrames_append rest chunk
    rw [h₃, ih, h₁]
    simp
termination_by buf.length
decreasing_by
  exact findDelim_some_len hfd

/-- The tail kept in the buffer never contains a frame delimiter. -/
theorem findDelim_extractFrames_snd (buf : List Char) :
    findDelim (extractFrames buf).2 = none := by
  cases hfd : findDelim buf with
  | none => rw [extractFrames_eq_none hfd]; exact hfd
  | some ps =>
    obtain ⟨frame, rest⟩ := ps
    rw [extractFrames_eq_some hfd]
    exact findDelim_extractFrames_snd rest
termination_by buf.length
decreasing_by
  exact findDelim_some_len hfd

/-- One iteration of the outer read loop of `streamChat` (api.ts lines
151-165): append the newly decoded chunk to the buffer, then extract
every complete frame. The first component accumulates all frames
emitted so far. -/
def feedChunk (st : List (List Char) × List Char) (chunk : List Char) :
    List (List Char) × List Char :=
  let r := extractFrames (st.2 ++ chunk)
  (st.1 ++ r.1, r.2)

/-- Running the read loop over a whole sequence of chunks. -/
def decodeChunks (chunks : List (List Char)) : List (List Char) × List Char :=
  chunks.foldl feedChunk ([], [])

theorem decode_fold :
    ∀ (chunks : List (List Char)) (fs : List (List Char)) (buf : List Char),
      findDelim buf = none →
      chunks.foldl feedChunk (fs, buf) =
        (fs ++ (extractFrames (buf ++ chunks.flatten)).1,
          (extractFrames (buf ++ chunks.flatten)).2)
  | [], fs, buf, h => by
    simp [List.flatten, extractFrames_eq_none h]
  | c :: cs, fs, buf, h => by
    rw [List.foldl_cons]
    show List.foldl feedChunk (fs ++ (extractFrames (buf ++ c)).1, (extractFrames (buf ++ c)).2) cs = _
    rw [decode_fold cs (fs ++ (extractFrames (buf ++ c)).1) (extractFrames (buf ++ c)).2
          (findDelim_extractFrames_snd (buf ++ c))]
    have hassoc : buf ++ (c :: cs).flatten = (buf ++ c) ++ cs.flatten := by
      simp [List.flatten_cons, List.append_assoc]
    rw [hassoc, extractFrames_append (buf ++ c) cs.flatten, List.append_assoc]

theorem decodeChunks_eq_join (chunks : List (List Char)) :
    decodeChunks chunks = extractFrames chunks.flatten := by
  rw [decodeChunks, decode_fold chunks [] [] rfl]
  simp

/-- Splitting a frame at newlines, as `chunk.split("\n")` does in
`processChunk` (api.ts line 142). -/
def splitLines : List Char → List (List Char)
  | [] => [[]]
  | c :: rest =>
    if c == '\n' then [] :: splitLines rest
    else
      match splitLines rest with
      | [] => [[c]]
      | l :: ls => (c :: l) :: ls

/-- The five characters of the payload-line marker `data:`. -/
def dataMarker : List Char := ['d', 'a', 't', 'a', ':']

/-- `processChunk` (api.ts lines 141-148): inspect each line of a frame,
keep only lines starting with the exact prefix `data:` and forward the
rest of each such line (`line.slice(5)`) to the payload interpreter. -/
def dataPayloads (frame : List Char) : List (List Char) :=
  (splitLines frame).filterMap fun line =>
    if line.take 5 = dataMarker then some (line.drop 5) else none

/-- The full framing run of `streamChat`: all frames found by the read
loop, plus — once the transport ends (api.ts lines 167-170) — the
leftover buffer as one final frame when it is non-empty after trimming. -/
def streamFrames (chunks : List (List Char)) : List (List Char) :=
  let r := decodeChunks chunks
  if trimChars r.2 = [] then r.1 else r.1 ++ [r.2]

/-- The ordered sequence of raw payload strings handed to
`processPayload` over a whole stream. -/
def streamPayloads (chunks : List (List Char)) : List (List Char) :=
  ((streamFrames chunks).map dataPayloads).flatten

/-- The payload strings produced by the read loop alone, before the
end-of-stream flush (used to model a read that throws: the flush at
api.ts lines 167-170 sits inside the `try` and is skipped then). -/
def loopPayloads (chunks : List (List Char)) : List (List Char) :=
  (((decodeChunks chunks).1).map dataPayloads).flatten

/-- JSON values, the possible results of the host `JSON.parse`.
`JSON.parse` itself is host-library code; the interpreter below takes
it as an oracle `parse : List Char → Option Json`, `none` standing for
a thrown `SyntaxError`. -/
inductive Json where
  | null : Json
  | bool (b : Bool) : Json
  | num (n : Int) : Json
  | str (s : String) : Json
  | arr (elems : List Json) : Json
  | obj (fields : List (String × Json)) : Json

/-- JavaScript property read `j.key` on a parsed value: an object
yields its field (or `undefined`, here `none`); reading a property of
any non-object JSON value yields `undefined`. -/
def getField (j : Json) (key : String) : Option Json :=
  match j with
  | Json.obj fields => lookupField fields key
  | _ => none
where
  lookupField : List (String × Json) → String → Option Json
    | [], _ => none
    | (k, v) :: rest, key => if k = key then some v else lookupField rest key

/-- `typeof parsed.error === "string" && parsed.error.length > 0`
(api.ts line 126). -/
def errorField (j : Json) : Option String :=
  match getField j "error" with
  | some (Json.str e) => if 0 < e.length then some e else none
  | _ => none

/-- `typeof parsed.delta === "string"` (api.ts line 129). -/
def deltaField (j : Json) : Option String :=
  match getField j "delta" with
  | some (Json.str d) => some d
  | _ => none

/-- `Array.isArray(parsed.citations)` (api.ts line 131). -/
def citationsField (j : Json) : Option (List Json) :=
  match getField j "citations" with
  | some (Json.arr cs) => some cs
  | _ => none

/-- The client-side citation record built by `mapCitation`
(api.ts lines 333-340).  The property reads are modelled totally: a
missing property is `none` (JavaScript `undefined`), and `page ?? null`
collapses a missing or null page to `Json.null`. -/
structure Citation where
  source : Option Json
  filename : Option Json
  page : Json
  content : Option Json

/-- `mapCitation` (api.ts lines 333-340). -/
def mapCitation (api : Json) : Citation :=
  { source := getField api "source"
    filename := getField api "filename"
    page :=
      match getField api "page" with
      | some Json.null => Json.null
      | none => Json.null
      | some v => v
    content := getField api "content" }

/-- One handler invocation made by `streamChat`: `onToken`,
`onCitations`, `onComplete` or `onError`. -/
inductive StreamEvent where
  | token (s : String)
  | citations (cs : List Citation)
  | complete
  | error (msg : String)

/-- The session-local state of one `streamChat` call: the `completed`
flag (api.ts line 112) and the ordered list of handler invocations
performed so far. -/
structure SessionState where
  completed : Bool
  events : List StreamEvent

/-- The fixed message of api.ts line 136. -/
def malformedMsg : String := "Received malformed streaming payload."

/-- The characters of the completion sentinel. -/
def doneChars : List Char := ['[', 'D', 'O', 'N', 'E', ']']

/-- The `if/else if` classification chain of `processPayload`
(api.ts lines 124-138) applied to a successfully parsed value. -/
def classifyParsed (st : SessionState) (parsed : Json) : SessionState :=
  match errorField parsed with
  | some e => { completed := true, events := st.events ++ [StreamEvent.error e] }
  | none =>
    match deltaField parsed with
    | some d => { st with events := st.events ++ [StreamEvent.token d] }
    | none =>
      match citationsField parsed with
      | some cs => { st with events := st.events ++ [StreamEvent.citations (cs.map mapCitation)] }
      | none => st

/-- `processPayload` (api.ts lines 114-139): trim the payload, drop it
if empty, recognise the `[DONE]` sentinel, otherwise parse it as JSON
(`parse`, the host `JSON.parse`; `none` models a thrown parse error)
and classify the result.  Note that the function never consults
`st.completed` before dispatching — exactly as the source. -/
def processPayload (parse : List Char → Option Json) (st : SessionState)
    (payload : List Char) : SessionState :=
  let trimmed := trimChars payload
  if trimmed = [] then st
  else if trimmed = doneChars then
    { completed := true, events := st.events ++ [StreamEvent.complete] }
  else
    match parse trimmed with
    | none => { completed := true, events := st.events ++ [StreamEvent.error malformedMsg] }
    | some parsed => classifyParsed st parsed

/-- Processing a sequence of payload strings in arrival order. -/
def runPayloads (parse : List Char → Option Json) (st : SessionState)
    (payloads : List (List Char)) : SessionState :=
  payloads.foldl (processPayload parse) st

/-- The handler invocations of one `streamChat` call whose transport
delivered `chunks` and then ended normally, before the `finally`
cleanup. -/
def runStream (parse : List Char → Option Json) (chunks : List (List Char)) : SessionState :=
  runPayloads parse { completed := false, events := [] } (streamPayloads chunks)

/-- The whole of `streamChat` after the response opened successfully
(api.ts lines 108-179).  `readErr = some msg` models `reader.read()`
throwing after `chunks` were consumed: the `catch` block fires
`onError` and sets `completed`, and the end-of-stream flush is skipped.
Otherwise the loop and flush run, and the `finally` block synthesizes
`onComplete` when no terminal payload was seen. -/
def runStreamChat (parse : List Char → Option Json) (chunks : List (List Char))
    (readErr : Option String) : SessionState :=
  match readErr with
  | some msg =>
    let st := runPayloads parse { completed := false, events := [] } (loopPayloads chunks)
    { completed := true, events := st.events ++ [StreamEvent.error msg] }
  | none =>
    let st := runStream parse chunks
    if st.completed then st
    else { st with events := st.events ++ [StreamEvent.complete] }

/-- Events that mark a session terminal: a completion or any error. -/
def isTerminal : StreamEvent → Bool
  | StreamEvent.complete => true
  | StreamEvent.error _ => true
  | _ => false

/-- `true` exactly on `onComplete` invocations. -/
def isCompleteEv : StreamEvent → Bool
  | StreamEvent.complete => true
  | _ => false

theorem processPayload_completed_iff (parse : List Char → Option Json)
    (st : SessionState) (payload : List Char)
    (h : st.completed = st.events.any isTerminal) :
    (processPayload parse st payload).completed =
      ((processPayload parse st payload).events.any isTerminal) := by
  rw [processPayload]
  by_cases h₀ : trimChars payload = []
  · simpa [h₀] using h
  · by_cases h₁ : trimChars payload = doneChars
    · simp [h₀, h₁, doneChars, isTerminal]
    · simp only [h₀, h₁, if_neg, if_false]
      cases parse (trimChars payload) with
      | none => simp [isTerminal]
      | some parsed =>
        cases hE : errorField parsed with
        | some e => simp [classifyParsed, hE, isTerminal]
        | none =>
          cases hD : deltaField parsed with
          | some d => simpa [classifyParsed, hE, hD, isTerminal] using h
          | none =>
            cases hC : citationsField parsed with
            | some cs => simpa [classifyParsed, hE, hD, hC, isTerminal] using h
            | none => simpa [classifyParsed, hE, hD, hC] using h

theorem runPayloads_completed_iff (parse : List Char → Option Json)
    (payloads : List (List Char)) :
    ∀ st : SessionState, st.completed = st.events.any isTerminal →
      (runPayloads parse st payloads).completed =
        (runPayloads parse st payloads).events.any isTerminal := by
  induction payloads with
  | nil => intro st h; exact h
  | cons p ps ih =>
    intro st h
    rw [runPayloads, List.foldl_cons]
    exact ih (processPayload parse st p) (processPayload_completed_iff parse st p h)

theorem runStream_completed_iff (parse : List Char → Option Json)
    (chunks : List (List Char)) :
    (runStream parse chunks).completed = (runStream parse chunks).events.any isTerminal :=
  runPayloads_completed_iff parse (streamPayloads chunks)
    { completed := false, events := [] } rfl

theorem decodeChunks_singleton (l : List Char) :
    decodeChunks [l] = extractFrames l := by
  simp [decodeChunks, feedChunk]

/-- Emitted events do not depend on the session's `completed` flag nor
on previously emitted events: `processPayload` only ever appends, and
never consults the flag before dispatching. -/
theorem processPayload_events_shift (p : List Char → Option Json) (payload : List Char)
    (b : Bool) (evs : List StreamEvent) :
    (processPayload p { completed := b, events := evs } payload).events =
      evs ++ (processPayload p { completed := false, events := [] } payload).events := by
  by_cases h₀ : trimChars payload = []
  · simp [processPayload, h₀]
  · by_cases h₁ : trimChars payload = doneChars
    · simp [processPayload, h₀, h₁, doneChars]
    · cases hP : p (trimChars payload) with
      | none => simp [processPayload, if_neg h₀, if_neg h₁, hP]
      | some parsed =>
        cases hE : errorField parsed with
        | some e => simp [processPayload, if_neg h₀, if_neg h₁, hP, classifyParsed, hE]
        | none =>
          cases hD : deltaField parsed with
          | some d => simp [processPayload, if_neg h₀, if_neg h₁, hP, classifyParsed, hE, hD]
          | none =>
            cases hC : citationsField parsed with
            | some cs => simp [processPayload, if_neg h₀, if_neg h₁, hP, classifyParsed, hE, hD, hC]
            | none => simp [processPayload, if_neg h₀, if_neg h₁, hP, classifyParsed, hE, hD, hC]

/-- C2: frame decoding is chunking-invariant — for every partition of
the input into chunks delivered in order, the decoder state, the
emitted frame sequence and the forwarded payload sequence are the same
as for the whole input delivered as a single chunk. -/
theorem frame_decoding_chunking_invariant (chunks : List (List Char)) :
    decodeChunks chunks = decodeChunks [chunks.flatten] ∧
    streamFrames chunks = streamFrames [chunks.flatten] ∧
    streamPayloads chunks = streamPayloads [chunks.flatten] ∧
    (∀ parse : List Char → Option Json,
      runStream parse chunks = runStream parse [chunks.flatten]) := by
  have h : decodeChunks chunks = decodeChunks [chunks.flatten] := by
    rw [decodeChunks_eq_join, decodeChunks_singleton]
  have hp : streamPayloads chunks = streamPayloads [chunks.flatten] := by
    rw [streamPayloads, streamPayloads, streamFrames, streamFrames, h]
  refine ⟨h, ?_, hp, ?_⟩
  · rw [streamFrames, streamFrames, h]
  · intro parse
    rw [runStream, runStream, hp]

/-- C7 (amended): when the transport ends, a remainder that is
non-empty after trimming whitespace is emitted as one final frame whose
`data:` lines are forwarded; a remainder that is empty or
whitespace-only yields no final frame. -/
theorem end_of_stream_flush (chunks : List (List Char)) :
    streamFrames chunks =
      (decodeChunks chunks).1 ++
        (if trimChars (decodeChunks chunks).2 = [] then []
          else [(decodeChunks chunks).2]) ∧
    streamPayloads chunks =
      (((decodeChunks chunks).1).map dataPayloads).flatten ++
        (if trimChars (decodeChunks chunks).2 = [] then []
          else dataPayloads (decodeChunks chunks).2) := by
  constructor
  · rw [streamFrames]
    by_cases h : trimChars (decodeChunks chunks).2 = [] <;> simp [h]
  · rw [streamPayloads, streamFrames]
    by_cases h : trimChars (decodeChunks chunks).2 = [] <;> simp [h]

/-- A transport run whose leftover buffer is the lone newline left
after the frame `data: x` — non-empty, but empty after trimming. -/
def whitespaceTailInput : List Char := "data: x\n\n\n".data

/-- C7 counterexample: after this input the decoder's remainder is the
non-empty string `"\n"`, yet no final frame is emitted for it — the
flush tests `buffer.trim().length > 0`, not buffer non-emptiness, so
"only an empty remainder yields no final frame" is false as stated. -/
theorem nonempty_remainder_without_final_frame :
    (decodeChunks [whitespaceTailInput]).2 = ['\n'] ∧
    (decodeChunks [whitespaceTailInput]).2 ≠ [] ∧
    streamFrames [whitespaceTailInput] = ["data: x".data] :=
  ⟨rfl, by decide, rfl⟩

/-- A `JSON.parse` oracle fixture for the two payloads used by the
stale-error stream below. -/
def parseFixture : List Char → Option Json := fun s =>
  if s = "\x7b\"error\":\"x\"\x7d".data then some (Json.obj [("error", Json.str "x")])
  else if s = "\x7b\"delta\":\"y\"\x7d".data then some (Json.obj [("delta", Json.str "y")])
  else none

/-- A stream whose first frame carries a server error and whose second
frame carries a token delta. -/
def errorThenDeltaStream : List Char :=
  "data: \x7b\"error\":\"x\"\x7d\n\ndata: \x7b\"delta\":\"y\"\x7d\n\n".data

/-- C5 counterexample: after the ServerError for the first frame, the
Token of the following frame is still delivered to the handlers — the
read loop keeps parsing frames and `processPayload` never consults the
`completed` flag before dispatching. -/
theorem token_delivered_after_server_error :
    (runStreamChat parseFixture [errorThenDeltaStream] none).events =
      [StreamEvent.error "x", StreamEvent.token "y"] := rfl

/-- C5 (amended): once a ProtocolError or ServerError has been emitted,
the session's `completed` flag is set, so the end-of-stream cleanup
synthesizes no Completion; however, events of later frames are still
delivered — what `processPayload` emits is independent of the flag. -/
theorem stream_error_sets_completed (parse : List Char → Option Json)
    (chunks : List (List Char))
    (h : ∃ m, StreamEvent.error m ∈ (runStream parse chunks).events) :
    (runStream parse chunks).completed = true ∧
    runStreamChat parse chunks none = runStream parse chunks ∧
    (∀ (p : List Char → Option Json) (payload : List Char) (evs : List StreamEvent),
      (processPayload p { completed := true, events := evs } payload).events =
        evs ++ (processPayload p { completed := false, events := [] } payload).events) := by
  obtain ⟨m, hm⟩ := h
  have hc : (runStream parse chunks).completed = true := by
    rw [runStream_completed_iff]
    exact List.any_eq_true.mpr ⟨_, hm, rfl⟩
  refine ⟨hc, ?_, fun p payload evs => processPayload_events_shift p payload true evs⟩
  rw [runStreamChat]
  simp [hc]

theorem stream_error_sets_completed_witness :
    (runStream parseFixture [errorThenDeltaStream]).completed = true :=
  (stream_error_sets_completed parseFixture [errorThenDeltaStream]
    ⟨"x", List.Mem.head _⟩).1

/-- C6: a payload that parses to an object carrying both a non-empty
`error` string and a `delta` string yields exactly one ServerError
event with the error message, and no Token event. -/
theorem error_precedence (parse : List Char → Option Json) (payload : List Char)
    (parsed : Json) (e d : String) (st : SessionState)
    (h₀ : trimChars payload ≠ [])
    (h₁ : trimChars payload ≠ doneChars)
    (h₂ : parse (trimChars payload) = some parsed)
    (h₃ : getField parsed "error" = some (Json.str e))
    (h₄ : 0 < e.length)
    (h₅ : getField parsed "delta" = some (Json.str d)) :
    processPayload parse st payload =
      { completed := true, events := st.events ++ [StreamEvent.error e] } := by
  have hE : errorField parsed = some e := by
    simp [errorField, h₃, h₄]
  simp [processPayload, if_neg h₀, if_neg h₁, h₂, classifyParsed, hE]

/-- A parsed payload carrying both a non-empty error and a delta. -/
def bothFieldsObj : Json :=
  Json.obj [("error", Json.str "x"), ("delta", Json.str "y")]

theorem error_precedence_witness :
    processPayload (fun _ => some bothFieldsObj)
        { completed := false, events := [] } "p".data =
      { completed := true, events := [StreamEvent.error "x"] } :=
  error_precedence (fun _ => some bothFieldsObj) "p".data bothFieldsObj "x" "y"
    { completed := false, events := [] } (by decide) (by decide) rfl rfl
    (by decide) rfl

/-- C10: when a stream that opened successfully ends without any
terminal payload having been observed (no `[DONE]`, no error payload,
no malformed payload) and without a read failure, the cleanup path
synthesizes exactly one Completion; and every run of the stream —
whatever its payloads and however the read ends — produces at least one
terminal callback. -/
theorem synthesized_completion (parse : List Char → Option Json)
    (chunks : List (List Char))
    (hquiet : (runStream parse chunks).events.any isTerminal = false) :
    (runStreamChat parse chunks none).events =
      (runStream parse chunks).events ++ [StreamEvent.complete] ∧
    (runStreamChat parse chunks none).events.countP isCompleteEv = 1 ∧
    (∀ (p : List Char → Option Json) (c : List (List Char)) (rerr : Option String),
      ((runStreamChat p c rerr).events.any isTerminal) = true) := by
  have hc : (runStream parse chunks).completed = false := by
    rw [runStream_completed_iff]
    exact hquiet
  have hev : (runStreamChat parse chunks none).events =
      (runStream parse chunks).events ++ [StreamEvent.complete] := by
    rw [runStreamChat]
    simp [hc]
  refine ⟨hev, ?_, ?_⟩
  · rw [hev, List.countP_append]
    have hzero : (runStream parse chunks).events.countP isCompleteEv = 0 := by
      rw [List.countP_eq_zero]
      intro e he hce
      have : isTerminal e = true := by
        cases e <;> simp_all [isCompleteEv, isTerminal]
      rw [List.any_eq_false] at hquiet
      exact absurd this (by simpa using hquiet e he)
    rw [hzero]
    rfl
  · intro p c rerr
    cases rerr with
    | some msg => simp [runStreamChat, List.any_append, isTerminal]
    | none =>
      rw [runStreamChat]
      by_cases hcc : (runStream p c).completed
      · have : (runStream p c).events.any isTerminal = true := by
          rw [← runStream_completed_iff]
          exact hcc
        simpa [hcc] using this
      · simp [hcc, List.any_append, isTerminal]

theorem synthesized_completion_witness :
    (runStreamChat (fun _ => none) [] none).events = [StreamEvent.complete] :=
  (synthesized_completion (fun _ => none) [] rfl).1

/-! ### Client conversation state (`ChatLayout.tsx`, `ChatWindow.tsx`) -/

/-- `MessageRole` (lib/types.ts). -/
inductive MessageRole where
  | user
  | assistant
  | system
  deriving DecidableEq

/-- `ConversationMessage` (lib/types.ts). -/
structure ConversationMessage where
  role : MessageRole
  content : String
  createdAt : String
  citations : Option (List Citation)

/-- `ConversationDetail` (lib/types.ts). -/
structure ConversationDetail where
  id : String
  title : String
  messages : List ConversationMessage
  createdAt : String
  updatedAt : String

/-- `ConversationSummary` (lib/types.ts). -/
structure ConversationSummary where
  id : String
  title : String
  lastMessagePreview : Option String
  updatedAt : String
  deriving DecidableEq

/-- The React state owned by `ChatLayout` that the claims are about
(ChatLayout.tsx lines 60-66). -/
structure AppState where
  conversations : List ConversationSummary
  selectedConversationId : Option String
  conversation : Option ConversationDetail
  streamingAnswer : String
  isStreaming : Bool
  error : Option String

/-- `summarize` (ChatLayout.tsx lines 210-219): project a detail to a
summary, previewing the last message when one exists. -/
def summarize (detail : ConversationDetail) : ConversationSummary :=
  { id := detail.id
    title := detail.title
    lastMessagePreview := detail.messages.getLast?.map (fun m => m.content)
    updatedAt := detail.updatedAt }

/-- The `onToken` handler of `handleSendQuestion` (ChatLayout.tsx lines
318-320): append the token to the transient buffer.  There is no
generation guard in the source, so the append is unconditional. -/
def applyStreamToken (st : AppState) (tok : String) : AppState :=
  { st with streamingAnswer := st.streamingAnswer ++ tok }

/-- The `onError` handler of `handleSendQuestion` (ChatLayout.tsx lines
321-323). -/
def applyStreamErrorMsg (st : AppState) (msg : String) : AppState :=
  { st with error := some msg }

/-- The synchronous prefix of `handleSendQuestion` (ChatLayout.tsx
lines 296-314), run when a conversation is selected: reset the error,
clear the transient buffer, raise the streaming flag and append the
optimistic user message with a client timestamp. -/
def sendStart (st : AppState) (question ts : String) : AppState :=
  { st with
    error := none
    streamingAnswer := ""
    isStreaming := true
    conversation := st.conversation.map fun c =>
      { c with messages := c.messages ++
          [{ role := MessageRole.user, content := question, createdAt := ts, citations := none }] } }

/-- The `finally` of the stream block (ChatLayout.tsx lines 327-329). -/
def streamSettled (st : AppState) : AppState :=
  { st with isStreaming := false }

/-- The reconciliation block of `handleSendQuestion` (ChatLayout.tsx
lines 331-342): the joint outcome of the two parallel requests
(`Promise.all [getConversation, listConversations]`).  On success both
pieces of state are replaced wholesale; on failure the error is
surfaced; either way the transient buffer is cleared in `finally`. -/
def reconcile (st : AppState)
    (result : Except String (ConversationDetail × List ConversationSummary)) : AppState :=
  match result with
  | Except.ok (detail, summaries) =>
    { st with conversation := some detail, conversations := summaries, streamingAnswer := "" }
  | Except.error msg =>
    { st with error := some msg, streamingAnswer := "" }

/-- A handler invocation that `streamChat` makes back into
`handleSendQuestion` (only `onToken` and `onError` are registered
there, ChatLayout.tsx lines 317-324). -/
inductive HandlerEvent where
  | token (s : String)
  | errMsg (s : String)

def applyHandlerEvent (st : AppState) (e : HandlerEvent) : AppState :=
  match e with
  | HandlerEvent.token s => applyStreamToken st s
  | HandlerEvent.errMsg m => applyStreamErrorMsg st m

/-- The whole of `handleSendQuestion` (ChatLayout.tsx lines 290-345)
run to completion without interleaving: guard on a selected
conversation, optimistic start, the stream's handler invocations in
order, the `finally` that lowers the flag, then reconciliation. -/
def handleSendQuestion (st : AppState) (question ts : String)
    (events : List HandlerEvent)
    (recon : Except String (ConversationDetail × List ConversationSummary)) : AppState :=
  match st.selectedConversationId with
  | none => st
  | some _ =>
    reconcile (streamSettled (events.foldl applyHandlerEvent (sendStart st question ts))) recon

/-- `handleSelectConversation` (ChatLayout.tsx lines 277-288) plus the
`loadConversation` it awaits (lines 221-232): reset error, clear the
transient buffer, lower the streaming flag, then replace the displayed
conversation and the selection on a successful load. -/
def handleSelectConversation (st : AppState) (cid : String)
    (result : Except String ConversationDetail) : AppState :=
  let st₁ : AppState := { st with error := none, streamingAnswer := "", isStreaming := false }
  match result with
  | Except.ok detail =>
    { st₁ with conversation := some detail, selectedConversationId := some cid }
  | Except.error msg => { st₁ with error := some msg }

/-- The optimistic summary insert of `handleCreateConversation`
(ChatLayout.tsx line 270): prepend the new summary, drop any entry
with the same identifier, truncate to five. -/
def optimisticInsert (s : ConversationSummary) (prev : List ConversationSummary) :
    List ConversationSummary :=
  (s :: prev.filter fun c => c.id != s.id).take 5

/-- `handleCreateConversation` (ChatLayout.tsx lines 264-275), with the
server's create result as input (the sidebar-open flip is view state
and not modelled). -/
def handleCreateConversation (st : AppState)
    (result : Except String ConversationDetail) : AppState :=
  match result with
  | Except.ok detail =>
    { st with
      error := none
      conversation := some detail
      selectedConversationId := some detail.id
      conversations := optimisticInsert (summarize detail) st.conversations }
  | Except.error msg => { st with error := some msg }

/-- A sequence of successful creates. -/
def createMany (st : AppState) (details : List ConversationDetail) : AppState :=
  details.foldl (fun s d => handleCreateConversation s (Except.ok d)) st

/-- The message list `ChatWindow` renders
(ChatWindow.tsx line 21: `conversation?.messages ?? []`). -/
def displayedMessages (st : AppState) : List ConversationMessage :=
  match st.conversation with
  | some c => c.messages
  | none => []

/-- The transient streaming bubble `ChatWindow` renders: present only
while `isStreaming` (ChatWindow.tsx lines 75-84). -/
def displayedTransient (st : AppState) : Option String :=
  if st.isStreaming then some st.streamingAnswer else none

/-- Model of JavaScript `s.trim()` on `String`. -/
def trimString (s : String) : String :=
  String.mk (trimChars s.data)

/-- `handleSend` in `ChatWindow` (ChatWindow.tsx lines 50-56) composed
with the `onSend` it calls (`handleSendQuestion`): while a stream is
active, or for a blank input, the submission is dropped before any
state change.  The boolean reports whether a network stream was
opened. -/
def handleSend (st : AppState) (input ts : String) (events : List HandlerEvent)
    (recon : Except String (ConversationDetail × List ConversationSummary)) :
    AppState × Bool :=
  if st.isStreaming || trimString input == "" then (st, false)
  else (handleSendQuestion st input ts events recon, st.selectedConversationId.isSome)

/-- `isSendDisabled` in `ChatInput` (ChatInput.tsx lines 50-51):
`disabled || trimmed.length === 0`, where `ChatWindow` passes
`disabled = isStreaming` (ChatWindow.tsx line 97). -/
def isSendDisabled (disabled : Bool) (value : String) : Bool :=
  disabled || ((trimString value).length == 0)

/-! ### Theorems about the conversation state -/

/-- C3: after a terminal stream outcome, when the joint reconciliation
fetch succeeds the local conversation and summary list are replaced
wholesale with the server results, the transient buffer is cleared, and
the displayed message list is exactly the server's list in order (no
transient bubble remains). -/
theorem reconciliation_replaces_transient (st : AppState) (q ts : String)
    (events : List HandlerEvent) (detail : ConversationDetail)
    (summaries : List ConversationSummary)
    (hsel : st.selectedConversationId.isSome = true) :
    (handleSendQuestion st q ts events (Except.ok (detail, summaries))).streamingAnswer = "" ∧
    (handleSendQuestion st q ts events (Except.ok (detail, summaries))).conversation = some detail ∧
    displayedMessages (handleSendQuestion st q ts events (Except.ok (detail, summaries))) =
      detail.messages ∧
    (handleSendQuestion st q ts events (Except.ok (detail, summaries))).conversations = summaries ∧
    (handleSendQuestion st q ts events (Except.ok (detail, summaries))).isStreaming = false ∧
    displayedTransient (handleSendQuestion st q ts events (Except.ok (detail, summaries))) = none := by
  obtain ⟨cid, hcid⟩ := Option.isSome_iff_exists.mp hsel
  simp [handleSendQuestion, hcid, reconcile, streamSettled, displayedMessages,
    displayedTransient]

/-- An idle client looking at a freshly created conversation. -/
def idleState : AppState :=
  { conversations := [], selectedConversationId := some "A", conversation := none,
    streamingAnswer := "", isStreaming := false, error := none }

/-- Server truth fetched by a reconciliation in the witnesses below. -/
def serverDetail : ConversationDetail :=
  { id := "A", title := "Chat A",
    messages :=
      [{ role := MessageRole.user, content := "q", createdAt := "t1", citations := none },
        { role := MessageRole.assistant, content := "a", createdAt := "t2", citations := none }],
    createdAt := "t0", updatedAt := "t2" }

theorem reconciliation_replaces_transient_witness :
    displayedMessages
        (handleSendQuestion idleState "q" "t1" [HandlerEvent.token "a"]
          (Except.ok (serverDetail, [summarize serverDetail]))) =
      serverDetail.messages :=
  (reconciliation_replaces_transient idleState "q" "t1" [HandlerEvent.token "a"]
    serverDetail [summarize serverDetail] rfl).2.2.1

theorem optimisticInsert_filter_eq {x : String} {l : List ConversationSummary}
    (h : x ∉ l.map fun c => c.id) :
    (l.filter fun c => c.id != x) = l := by
  apply List.filter_eq_self.mpr
  intro a ha
  have hne : a.id ≠ x := fun he => h (he ▸ List.mem_map_of_mem _ ha)
  simpa [bne_iff_ne] using hne

theorem take_append_take {α : Type} (n : Nat) (a b : List α) :
    (a ++ b.take n).take n = (a ++ b).take n := by
  rw [List.take_append_eq_append_take, List.take_append_eq_append_take, List.take_take,
    Nat.min_eq_left (Nat.sub_le n a.length)]

theorem createMany_conversations :
    ∀ (details : List ConversationDetail) (st : AppState),
      (details.map fun d => d.id).Nodup →
      (∀ d ∈ details, d.id ∉ st.conversations.map fun c => c.id) →
      st.conversations.length ≤ 5 →
      (createMany st details).conversations =
        ((details.map summarize).reverse ++ st.conversations).take 5
  | [], st, _, _, hlen => by
    simpa [createMany] using (List.take_of_length_le hlen).symm
  | d :: rest, st, hnd, hdisj, hlen => by
    have hfresh : d.id ∉ st.conversations.map fun c => c.id :=
      hdisj d (List.mem_cons_self d rest)
    have hfe : (st.conversations.filter fun c => c.id != (summarize d).id) =
        st.conversations :=
      optimisticInsert_filter_eq (by simpa [summarize] using hfresh)
    have hstep : (handleCreateConversation st (Except.ok d)).conversations =
        (summarize d :: st.conversations).take 5 := by
      show optimisticInsert (summarize d) st.conversations = _
      rw [optimisticInsert, hfe]
    have hnd' : (rest.map fun d => d.id).Nodup := by
      rw [List.map_cons, List.nodup_cons] at hnd
      exact hnd.2
    have hhead : d.id ∉ rest.map fun d => d.id := by
      rw [List.map_cons, List.nodup_cons] at hnd
      exact hnd.1
    have hdisj' : ∀ d' ∈ rest,
        d'.id ∉ (handleCreateConversation st (Except.ok d)).conversations.map fun c => c.id := by
      intro d' hd' hmem
      rw [hstep] at hmem
      have hsub : d'.id ∈ (summarize d :: st.conversations).map fun c => c.id :=
        List.map_subset _ (List.take_subset _ _) hmem
      rw [List.map_cons] at hsub
      rcases List.mem_cons.mp hsub with hcase | hcase
      · have hdd : d'.id = d.id := by simpa [summarize] using hcase
        exact hhead (hdd ▸ List.mem_map_of_mem (fun d => d.id) hd')
      · exact hdisj d' (List.mem_cons_of_mem d hd') hcase
    have hlen' : (handleCreateConversation st (Except.ok d)).conversations.length ≤ 5 := by
      rw [hstep]
      exact List.length_take_le _ _
    have ih := createMany_conversations rest (handleCreateConversation st (Except.ok d))
      hnd' hdisj' hlen'
    have hunfold : createMany st (d :: rest) =
        createMany (handleCreateConversation st (Except.ok d)) rest := rfl
    rw [hunfold, ih, hstep, take_append_take, List.map_cons, List.reverse_cons,
      List.append_assoc]
    rfl

/-- C4: on every create the new summary is prepended, any entry with
the same identifier removed, and the list truncated to five — so a
sequence of creates of fresh conversations leaves the cache holding the
at most five most recent summaries, newest first, deduplicated, and no
single create can ever leave more than five entries. -/
theorem optimistic_summary_cache (details : List ConversationDetail) (st : AppState)
    (h₀ : st.conversations = [])
    (h₁ : (details.map fun d => d.id).Nodup) :
    (createMany st details).conversations = ((details.map summarize).reverse).take 5 ∧
    (createMany st details).conversations.length ≤ 5 ∧
    ((createMany st details).conversations.map fun c => c.id).Nodup ∧
    (∀ (s : AppState) (d : ConversationDetail),
      (handleCreateConversation s (Except.ok d)).conversations.length ≤ 5) := by
  have hmain := createMany_conversations details st h₁ (by simp [h₀]) (by simp [h₀])
  rw [h₀, List.append_nil] at hmain
  refine ⟨hmain, ?_, ?_, ?_⟩
  · rw [hmain]
    exact List.length_take_le _ _
  · rw [hmain]
    have hids : (((details.map summarize).reverse.take 5).map fun c => c.id) =
        (details.map fun d => d.id).reverse.take 5 := by
      rw [List.map_take, List.map_reverse, List.map_map]
      rfl
    have hnd : ((details.map fun d => d.id).reverse.take 5).Nodup :=
      List.Nodup.sublist (List.take_sublist _ _) (List.nodup_reverse.mpr h₁)
    rw [hids]
    exact hnd
  · intro s d
    have : (handleCreateConversation s (Except.ok d)).conversations =
        optimisticInsert (summarize d) s.conversations := rfl
    rw [this, optimisticInsert]
    exact List.length_take_le _ _

def freshDetail (i : String) : ConversationDetail :=
  { id := i, title := i, messages := [], createdAt := "t", updatedAt := "t" }

def sevenCreates : List ConversationDetail :=
  [freshDetail "1", freshDetail "2", freshDetail "3", freshDetail "4",
    freshDetail "5", freshDetail "6", freshDetail "7"]

/-- The empty client state before any conversation exists. -/
def emptyState : AppState :=
  { conversations := [], selectedConversationId := none, conversation := none,
    streamingAnswer := "", isStreaming := false, error := none }

theorem optimistic_summary_cache_witness :
    (createMany emptyState sevenCreates).conversations =
      [summarize (freshDetail "7"), summarize (freshDetail "6"),
        summarize (freshDetail "5"), summarize (freshDetail "4"),
        summarize (freshDetail "3")] :=
  ((optimistic_summary_cache sevenCreates emptyState rfl (by decide)).1).trans rfl

/-- C8: while a stream is active, submitting a new question is rejected
before any state change — no optimistic user message is appended and no
network stream is opened — and the composer's send control is disabled. -/
theorem single_active_stream_reject (st : AppState) (input ts : String)
    (events : List HandlerEvent)
    (recon : Except String (ConversationDetail × List ConversationSummary))
    (h : st.isStreaming = true) :
    handleSend st input ts events recon = (st, false) ∧
    (∀ v : String, isSendDisabled true v = true) := by
  constructor
  · simp [handleSend, h]
  · intro v
    rfl

/-- A client in the middle of a streaming answer. -/
def streamingState : AppState :=
  { conversations := [], selectedConversationId := some "A", conversation := none,
    streamingAnswer := "partial", isStreaming := true, error := none }

theorem single_active_stream_reject_witness :
    handleSend streamingState "hi" "t" [] (Except.error "e") = (streamingState, false) :=
  (single_active_stream_reject streamingState "hi" "t" [] (Except.error "e") rfl).1

/-! ### Non-streaming HTTP operations (`api.ts`) -/

/-- The observable parts of a `fetch` `Response` the non-streaming
operations consult. -/
structure HttpResponse where
  ok : Bool
  bodyText : String
  statusText : String
  jsonBody : Json

/-- The shared `http` helper (api.ts lines 14-31): a non-ok response
throws with the body text, falling back to the status text when the
body is empty (`detail || response.statusText`); an ok response
resolves with the parsed JSON body. -/
def httpResult (r : HttpResponse) : Except String Json :=
  if r.ok then Except.ok r.jsonBody
  else Except.error (if r.bodyText = "" then r.statusText else r.bodyText)

/-- `deleteConversation` (api.ts lines 54-63): a bare `fetch` with the
same non-ok check as `http`. -/
def deleteConversationResult (r : HttpResponse) : Except String Unit :=
  if r.ok then Except.ok ()
  else Except.error (if r.bodyText = "" then r.statusText else r.bodyText)

/-- `deleteDocument` (api.ts lines 227-229): a bare `fetch` whose
response status is never inspected — the operation resolves regardless. -/
def deleteDocumentResult (_ : HttpResponse) : Except String Unit :=
  Except.ok ()

/-- A failed DELETE response. -/
def failedDeleteResponse : HttpResponse :=
  { ok := false, bodyText := "boom", statusText := "Internal Server Error",
    jsonBody := Json.null }

/-- C9 counterexample: `deleteDocument` is a non-streaming API
operation, yet on a non-2xx response it does not fail — it resolves
successfully and the body text "boom" is never surfaced. -/
theorem delete_document_ignores_status :
    failedDeleteResponse.ok = false ∧
    failedDeleteResponse.bodyText = "boom" ∧
    deleteDocumentResult failedDeleteResponse = Except.ok () :=
  ⟨rfl, rfl, rfl⟩

/-- C9 (amended): every non-streaming operation that checks its
response — the shared `http` helper and `deleteConversation` — fails on
a non-2xx status with the response body text, falling back to the HTTP
status text when the body is empty, and returns no value; the exception
is `deleteDocument`, which ignores the response status entirely. -/
theorem non_2xx_surfaced (r : HttpResponse) (h : r.ok = false) :
    httpResult r = Except.error (if r.bodyText = "" then r.statusText else r.bodyText) ∧
    deleteConversationResult r =
      Except.error (if r.bodyText = "" then r.statusText else r.bodyText) ∧
    deleteDocumentResult r = Except.ok () := by
  refine ⟨?_, ?_, rfl⟩ <;> simp [httpResult, deleteConversationResult, h]

theorem non_2xx_surfaced_witness :
    httpResult failedDeleteResponse = Except.error "boom" :=
  ((non_2xx_surfaced failedDeleteResponse rfl).1).trans rfl

/-! ### The stale-session race (C1) -/

/-- The assistant message A holds before the ask. -/
def staleMsg : ConversationMessage :=
  { role := MessageRole.assistant, content := "old answer", createdAt := "t0",
    citations := none }

/-- The optimistic user message of the stale ask. -/
def staleAskMsg : ConversationMessage :=
  { role := MessageRole.user, content := "q1", createdAt := "t1", citations := none }

/-- The assistant answer the server persisted for the stale ask. -/
def staleAnswerMsg : ConversationMessage :=
  { role := MessageRole.assistant, content := "Hello", createdAt := "t9",
    citations := none }

/-- Conversation A before the ask. -/
def staleDetailA : ConversationDetail :=
  { id := "A", title := "Chat A", messages := [staleMsg], createdAt := "t0",
    updatedAt := "t0" }

/-- Conversation B, which the user switches to mid-stream. -/
def staleDetailB : ConversationDetail :=
  { id := "B", title := "Chat B", messages := [], createdAt := "t0", updatedAt := "t0" }

/-- Server truth for conversation A after its turn persisted. -/
def staleDetailA2 : ConversationDetail :=
  { id := "A", title := "Chat A", messages := [staleMsg, staleAskMsg, staleAnswerMsg],
    createdAt := "t0", updatedAt := "t9" }

/-- Viewing conversation A, idle. -/
def viewingA : AppState :=
  { conversations := [summarize staleDetailA, summarize staleDetailB],
    selectedConversationId := some "A", conversation := some staleDetailA,
    streamingAnswer := "", isStreaming := false, error := none }

/-- The failing interleaving: ask on A, receive the token "Hel", switch
to B before the session terminates, then ask on B.  Session 1 is now
stale (its captured conversation identifier is still "A"). -/
def afterSwitchToB : AppState :=
  handleSelectConversation (applyStreamToken (sendStart viewingA "q1" "t1") "Hel") "B"
    (Except.ok staleDetailB)

/-- A new ask submitted on B while session 1 is still in flight. -/
def afterAskOnB : AppState := sendStart afterSwitchToB "q2" "t2"

/-- The stale session's next token arrives. -/
def afterStaleToken : AppState := applyStreamToken afterAskOnB "lo"

/-- The stale session terminates: its `finally` lowers the streaming
flag and its reconciliation — keyed to the captured identifier "A" —
replaces the conversation and the summary list. -/
def afterStaleReconcile : AppState :=
  reconcile (streamSettled afterStaleToken)
    (Except.ok (staleDetailA2, [summarize staleDetailA2]))

/-- C1 (code bug): the source has no generation counter, so events of a
stale session are not no-ops.  On the trace above: the stale token
"lo" lands in the transient buffer displayed for B (which was empty),
and the stale session's terminal reconciliation replaces the displayed
conversation with A's detail and overwrites the summary list, although
the selection is B. -/
theorem stale_session_mutates_visible_state :
    afterAskOnB.selectedConversationId = some "B" ∧
    afterAskOnB.streamingAnswer = "" ∧
    displayedTransient afterStaleToken = some "lo" ∧
    afterStaleReconcile.selectedConversationId = some "B" ∧
    afterStaleReconcile.conversation = some staleDetailA2 ∧
    staleDetailA2.id = "A" ∧
    afterStaleReconcile.conversations = [summarize staleDetailA2] := by
  refine ⟨rfl, rfl, ?_, rfl, rfl, ?_, rfl⟩ <;> rfl

end RagClient
